import Mathlib

/-!
# AgriProof Agricultural Claim Registry — shallow embedding

This file embeds the AgriProof smart contract
(`smart_contracts/agriproof/contract.py`) in Lean 4 and proves the
specification claims about it.

Modelling conventions:
* `Bytes` (algopy `Bytes`) is a `List Nat`; an account address
  (`arc4.Address`) is a 32-byte `Bytes` value.
* Box storage is modelled per record family: the box keys in the source are
  `b"enrollment_" ++ addr`, `b"claim_" ++ addr` and `b"verifiers"`; the two
  prefixes have equal length (11 and 6 bytes) and differ from each other and
  from `"verifiers"`, so the key map decomposes exactly into the three
  independent maps `enrollments`, `claims` and `verifiers` used here.
* `arc4.UInt64` / AVM `uint64` values are `Nat`; AVM arithmetic panics
  (rather than wraps) on overflow past `2 ^ 64 - 1`, which is modelled as the
  explicit `Err.Overflow` failure at the one place the contract computes
  (`enroll_farmer`, line 124 of the source).
* Each ABI method is a function `ContractState → args → Option Err × ContractState`:
  the first component is `some e` when an `assert` (or AVM panic) aborts the
  call with error code `e`, and the second component is the storage state at
  the moment the call finished or aborted, with the writes the method body had
  performed up to that point.  The source performs every write after every
  assert, which is what makes the atomicity claim a real theorem here.
-/

abbrev Bytes := List Nat

/-- The AVM zero address: 32 zero bytes (`arc4.Address()` in `submit_claim`). -/
def zeroAddress : Bytes := List.replicate 32 0

/-- `Enrollment` struct stored in box `b"enrollment_" ++ addr` (source lines 59-62). -/
structure Enrollment where
  enrollment_timestamp : Nat
  claim_deadline : Nat
deriving DecidableEq, Repr

/-- `Claim` struct stored in box `b"claim_" ++ addr` (source lines 50-56).
`status` is the `arc4.UInt8` claim status: 0 = PENDING, 1 = APPROVED, 2 = REJECTED. -/
structure Claim where
  proof_hash : String
  status : Nat
  submission_timestamp : Nat
  verifier_address : Bytes
  verification_timestamp : Nat
deriving DecidableEq, Repr

/-- The error codes the contract aborts with (source lines 25-37), plus
`Overflow` for an AVM arithmetic panic. -/
inductive Err where
  | AlreadyEnrolled
  | InvalidDeadline
  | NotEnrolled
  | DeadlinePassed
  | DuplicateClaim
  | InvalidProofHash
  | NotVerifier
  | ClaimNotFound
  | ClaimNotPending
  | NotAdmin
  | VerifierExists
  | VerifierNotFound
  | EnrollmentNotFound
  | Overflow
deriving DecidableEq, Repr

/-- Persistent state of the contract: the `admin` global plus the box storage,
split into its three disjoint key families.  `verifiers = none` models the
`b"verifiers"` box being absent. -/
structure ContractState where
  admin : Bytes
  enrollments : Bytes → Option Enrollment
  claims : Bytes → Option Claim
  verifiers : Option Bytes

/-- Point update of a keyed record map (a box `create`/`put` at one key). -/
def updateMap {α : Type} (m : Bytes → Option α) (k : Bytes) (v : α) : Bytes → Option α :=
  fun a => if a = k then some v else m a

/-- AVM `uint64` values are below `2 ^ 64`; arithmetic panics at this bound. -/
def uint64Limit : Nat := 2 ^ 64

/-- `op.extract(b, start, len)` (AVM `extract3`): `len` bytes of `b` starting
at `start`.  At every call site in the contract `start + len ≤ b.length`, where
take/drop agrees with the AVM op (which would panic out of range). -/
def extract (b : Bytes) (start len : Nat) : Bytes := (b.drop start).take len

/-- Subroutine `_verifier_in_list` (source lines 378-388): scan the
`len / 32` fixed-width chunks of the blob for one equal to `address_bytes`. -/
def _verifier_in_list (verifiers_bytes address_bytes : Bytes) : Bool :=
  (List.range (verifiers_bytes.length / 32)).any fun i =>
    extract verifiers_bytes (i * 32) 32 == address_bytes

/-- Subroutine `_remove_from_list` (source lines 390-402): rebuild the blob
from the chunks different from `address_bytes`, in order. -/
def _remove_from_list (verifiers_bytes address_bytes : Bytes) : Bytes :=
  (List.range (verifiers_bytes.length / 32)).foldl
    (fun result i =>
      let verifier := extract verifiers_bytes (i * 32) 32
      if verifier ≠ address_bytes then result ++ verifier else result)
    []

/-- Subroutine `_is_verifier` (source lines 367-376): `False` when the
`b"verifiers"` box is absent, membership scan otherwise. -/
def _is_verifier (s : ContractState) (address : Bytes) : Bool :=
  match s.verifiers with
  | none => false
  | some verifiers_bytes => _verifier_in_list verifiers_bytes address

/-- `create` (source lines 94-100): the deployer becomes admin; no boxes exist. -/
def createState (deployer : Bytes) : ContractState :=
  { admin := deployer
    enrollments := fun _ => none
    claims := fun _ => none
    verifiers := none }

/-- `enroll_farmer` (source lines 102-135).  `sender` is `Txn.sender.bytes`,
`now` is `Global.latest_timestamp`.  Checks in source order:
`deadline_days > 0` else `InvalidDeadline`; enrollment box absent else
`AlreadyEnrolled`; then the AVM computes `now + deadline_days * 86400`
(panicking past `2 ^ 64 - 1`) and stores the record. -/
def enroll_farmer (s : ContractState) (sender : Bytes) (deadline_days now : Nat) :
    Option Err × ContractState :=
  if 0 < deadline_days then
    if (s.enrollments sender).isSome then (some .AlreadyEnrolled, s)
    else
      if now + deadline_days * 86400 < uint64Limit then
        let enrollment : Enrollment :=
          { enrollment_timestamp := now
            claim_deadline := now + deadline_days * 86400 }
        (none, { s with enrollments := updateMap s.enrollments sender enrollment })
      else (some .Overflow, s)
  else (some .InvalidDeadline, s)

/-- `submit_claim` (source lines 137-181).  Checks in source order:
non-empty proof hash; enrollment exists; `now < claim_deadline`; no existing
claim box; then stores a PENDING claim with zero verifier fields. -/
def submit_claim (s : ContractState) (sender : Bytes) (proof_hash : String) (now : Nat) :
    Option Err × ContractState :=
  if proof_hash ≠ "" then
    match s.enrollments sender with
    | none => (some .NotEnrolled, s)
    | some enrollment =>
      if now < enrollment.claim_deadline then
        if (s.claims sender).isSome then (some .DuplicateClaim, s)
        else
          let claim : Claim :=
            { proof_hash := proof_hash
              status := 0
              submission_timestamp := now
              verifier_address := zeroAddress
              verification_timestamp := 0 }
          (none, { s with claims := updateMap s.claims sender claim })
      else (some .DeadlinePassed, s)
  else (some .InvalidProofHash, s)

/-- `verify_claim` (source lines 183-221).  Checks in source order: caller is
a verifier; claim box exists; status is PENDING; then rewrites the record with
the decision, the caller and the current time, carrying over `proof_hash` and
`submission_timestamp`. -/
def verify_claim (s : ContractState) (sender farmer_address : Bytes)
    (approved : Bool) (now : Nat) : Option Err × ContractState :=
  if _is_verifier s sender then
    match s.claims farmer_address with
    | none => (some .ClaimNotFound, s)
    | some claim =>
      if claim.status = 0 then
        let updated_claim : Claim :=
          { proof_hash := claim.proof_hash
            status := if approved then 1 else 2
            submission_timestamp := claim.submission_timestamp
            verifier_address := sender
            verification_timestamp := now }
        (none, { s with claims := updateMap s.claims farmer_address updated_claim })
      else (some .ClaimNotPending, s)
  else (some .NotVerifier, s)

/-- `add_verifier` (source lines 223-255).  Admin only; appends the address to
the `b"verifiers"` blob (creating it when absent), failing `VerifierExists`
when the membership scan finds it. -/
def add_verifier (s : ContractState) (sender verifier_address : Bytes) :
    Option Err × ContractState :=
  if sender = s.admin then
    match s.verifiers with
    | some verifiers_bytes =>
      if _verifier_in_list verifiers_bytes verifier_address then (some .VerifierExists, s)
      else (none, { s with verifiers := some (verifiers_bytes ++ verifier_address) })
    | none => (none, { s with verifiers := some verifier_address })
  else (some .NotAdmin, s)

/-- `remove_verifier` (source lines 257-287).  Admin only; filters the blob,
fails `VerifierNotFound` when the box is absent or nothing was removed, and
deletes the box when the result is empty. -/
def remove_verifier (s : ContractState) (sender verifier_address : Bytes) :
    Option Err × ContractState :=
  if sender = s.admin then
    match s.verifiers with
    | none => (some .VerifierNotFound, s)
    | some verifiers_bytes =>
      let new_verifiers := _remove_from_list verifiers_bytes verifier_address
      if new_verifiers.length < verifiers_bytes.length then
        if new_verifiers.length = 0 then (none, { s with verifiers := none })
        else (none, { s with verifiers := some new_verifiers })
      else (some .VerifierNotFound, s)
  else (some .NotAdmin, s)

/-- `get_claim` (source lines 289-316): read-only projection of a claim box. -/
def get_claim (s : ContractState) (farmer_address : Bytes) : Option Err × Option Claim :=
  match s.claims farmer_address with
  | none => (some .ClaimNotFound, none)
  | some claim => (none, some claim)

/-- `get_enrollment` (source lines 318-342): read-only projection of an
enrollment box. -/
def get_enrollment (s : ContractState) (farmer_address : Bytes) :
    Option Err × Option Enrollment :=
  match s.enrollments farmer_address with
  | none => (some .EnrollmentNotFound, none)
  | some enrollment => (none, some enrollment)

/-- `is_verifier` (source lines 344-355): read-only ABI wrapper around the
`_is_verifier` subroutine. -/
def is_verifier (s : ContractState) (address : Bytes) : Bool :=
  _is_verifier s address

/-- The five state-changing public operations of the contract, with the
transaction context (`Txn.sender`, `Global.latest_timestamp`) as fields. -/
inductive Op where
  | enroll (sender : Bytes) (deadline_days now : Nat)
  | submit (sender : Bytes) (proof_hash : String) (now : Nat)
  | verify (sender farmer : Bytes) (approved : Bool) (now : Nat)
  | addVerifier (sender verifier : Bytes)
  | removeVerifier (sender verifier : Bytes)

/-- Dispatch one public call. -/
def applyOp (s : ContractState) : Op → Option Err × ContractState
  | .enroll sender deadline_days now => enroll_farmer s sender deadline_days now
  | .submit sender proof_hash now => submit_claim s sender proof_hash now
  | .verify sender farmer approved now => verify_claim s sender farmer approved now
  | .addVerifier sender verifier => add_verifier s sender verifier
  | .removeVerifier sender verifier => remove_verifier s sender verifier

/-- ABI well-formedness of a call: every `arc4.Address` argument is exactly
32 bytes (guaranteed by the ARC-4 type system on chain). -/
def Op.wf : Op → Prop
  | .enroll sender _ _ => sender.length = 32
  | .submit sender _ _ => sender.length = 32
  | .verify sender farmer _ _ => sender.length = 32 ∧ farmer.length = 32
  | .addVerifier sender verifier => sender.length = 32 ∧ verifier.length = 32
  | .removeVerifier sender verifier => sender.length = 32 ∧ verifier.length = 32

/-- States reachable from contract creation by any sequence of well-formed
public calls (failed calls included: they leave the state as they found it). -/
inductive Reachable : ContractState → Prop where
  | init (deployer : Bytes) (h : deployer.length = 32) : Reachable (createState deployer)
  | step (s : ContractState) (op : Op) (h : Reachable s) (hop : op.wf) :
      Reachable (applyOp s op).2

/-- Boolean membership of an address among a list of chunks. -/
def listMemB (l : List Bytes) (x : Bytes) : Bool := l.any fun c => c == x


/-- The loop body of `_remove_from_list`, named for accumulator induction. -/
def removeBody (b a : Bytes) (result : Bytes) (i : Nat) : Bytes :=
  if extract b (i * 32) 32 ≠ a then result ++ extract b (i * 32) 32 else result


/-- Decompose a blob into its successive 32-byte chunks. -/
def chunks32 (b : Bytes) : List Bytes :=
  if h : b = [] then [] else b.take 32 :: chunks32 (b.drop 32)
termination_by b.length
decreasing_by
  simp only [List.length_drop]
  cases b with
  | nil => exact absurd rfl h
  | cons x r => simp only [List.length_cons]; omega


/-- The verifier storage of `s` represents the chunk list `l`: the box is
absent exactly when `l` is empty, and otherwise holds the concatenation of
the 32-byte, pairwise-distinct entries of `l`. -/
def StateRepr (s : ContractState) (l : List Bytes) : Prop :=
  match s.verifiers with
  | none => l = []
  | some b => b = l.flatten ∧ l ≠ [] ∧ (∀ c ∈ l, c.length = 32) ∧ l.Nodup


/-! ## Sequences of verifier-roster updates (for the membership claim) -/

/-- An abstract verifier-roster call: `add_verifier` or `remove_verifier`
with the given address argument. -/
inductive VOp where
  | add (v : Bytes)
  | remove (v : Bytes)

/-- The address argument of a roster call. -/
def VOp.addr : VOp → Bytes
  | .add v => v
  | .remove v => v

/-- Run one roster call with the given `Txn.sender`. -/
def applyVOp (s : ContractState) (p : Bytes × VOp) : Option Err × ContractState :=
  match p.2 with
  | .add v => add_verifier s p.1 v
  | .remove v => remove_verifier s p.1 v

/-- Run a sequence of roster calls, requiring every call to succeed. -/
def runVOps : ContractState → List (Bytes × VOp) → Option ContractState
  | s, [] => some s
  | s, p :: rest =>
    match applyVOp s p with
    | (none, s1) => runVOps s1 rest
    | (some _, _) => none

/-- Specification-side effect of one roster call on "is `x` a member":
an `add` of `x` makes it true, a `remove` of `x` makes it false, anything
else leaves it. -/
def memStep (x : Bytes) (b : Bool) (p : Bytes × VOp) : Bool :=
  match p.2 with
  | .add v => if v = x then true else b
  | .remove v => if v = x then false else b

/-- Specification-side membership: `x` was added by some call of the
sequence and not removed by any later call. -/
def addedNotLaterRemoved (x : Bytes) (ops : List (Bytes × VOp)) : Bool :=
  ops.foldl (memStep x) false


/-! ## A concrete demonstration run -/

/-- Sample proof hash used by the demonstration run. -/
def hashOne : String := "hash1"

/-- A second sample proof hash. -/
def hashTwo : String := "hash2"

/-- The empty proof hash, rejected by `submit_claim`. -/
def hashEmpty : String := ""

/-- Sample admin address (32 bytes). -/
def adminA : Bytes := List.replicate 32 10

/-- Sample farmer address (32 bytes). -/
def farmerA : Bytes := List.replicate 32 1

/-- Sample verifier address (32 bytes). -/
def verifierV : Bytes := List.replicate 32 2

/-- Sample non-verifier address (32 bytes). -/
def outsiderW : Bytes := List.replicate 32 3

/-- Contract deployed by `adminA`. -/
def demo0 : ContractState := createState adminA

/-- After `farmerA` enrolls with 30-day deadline at time 1000. -/
def demo1 : ContractState := (enroll_farmer demo0 farmerA 30 1000).2

/-- After `farmerA` submits a claim at time 2000. -/
def demo2 : ContractState := (submit_claim demo1 farmerA hashOne 2000).2

/-- After the admin registers `verifierV`. -/
def demo3 : ContractState := (add_verifier demo2 adminA verifierV).2

/-- After `verifierV` approves the claim at time 3000. -/
def demo4 : ContractState := (verify_claim demo3 verifierV farmerA true 3000).2

/-- A demonstration roster-call sequence: add `verifierV`, add `outsiderW`,
then remove `verifierV`, all by the admin. -/
def demoOps : List (Bytes × VOp) :=
  [(adminA, .add verifierV), (adminA, .add outsiderW), (adminA, .remove verifierV)]

/-- The state after running `demoOps` from `demo0`. -/
def demoV : ContractState :=
  (remove_verifier (add_verifier (add_verifier demo0 adminA verifierV).2
    adminA outsiderW).2 adminA verifierV).2

/-- An artificial state holding a claim record but no enrollment for
`farmerA`: it exercises the `NotEnrolled` branch of a blocked resubmission
(no such state is reachable, but the permanence theorem covers all states). -/
def demoX : ContractState :=
  { admin := adminA
    enrollments := fun _ => none
    claims := updateMap (fun _ => none) farmerA ⟨hashOne, 0, 2000, zeroAddress, 0⟩
    verifiers := none }


/-! ## Verifier-set codec: bridge to chunk lists -/

lemma extract_head (c r : Bytes) (hc : c.length = 32) : extract (c ++ r) 0 32 = c := by
  simp only [extract, List.drop_zero]
  rw [← hc, List.take_left]

lemma extract_shift (c r : Bytes) (hc : c.length = 32) (i : Nat) :
    extract (c ++ r) ((i + 1) * 32) 32 = extract r (i * 32) 32 := by
  have h32 : (i + 1) * 32 = 32 + i * 32 := by ring
  simp only [extract, h32, ← List.drop_drop]
  rw [← hc, List.drop_left]

lemma flatten_cons_length_div (c : Bytes) (r : Bytes) (hc : c.length = 32) :
    (c ++ r).length / 32 = r.length / 32 + 1 := by
  simp only [List.length_append, hc, Nat.add_comm 32 r.length]
  rw [Nat.add_div_right _ (by norm_num)]

lemma verifier_in_list_flatten (l : List Bytes) (hl : ∀ c ∈ l, c.length = 32) (a : Bytes) :
    _verifier_in_list l.flatten a = listMemB l a := by
  induction l with
  | nil => rfl
  | cons c t ih =>
    have hc : c.length = 32 := hl c (by simp)
    have ht : ∀ x ∈ t, x.length = 32 := fun x hx => hl x (by simp [hx])
    simp only [List.flatten_cons, _verifier_in_list,
      flatten_cons_length_div c t.flatten hc, List.range_succ_eq_map,
      List.any_cons, List.any_map, listMemB]
    have h0 : extract (c ++ t.flatten) (0 * 32) 32 = c := by
      simpa using extract_head c t.flatten hc
    rw [h0]
    congr 1
    have hfun : (fun i => extract (c ++ t.flatten) (i * 32) 32 == a) ∘ Nat.succ
        = fun i => extract t.flatten (i * 32) 32 == a := by
      funext i
      simp only [Function.comp]
      rw [show Nat.succ i * 32 = (i + 1) * 32 from rfl, extract_shift c t.flatten hc i]
    rw [hfun]
    exact ih ht

lemma remove_from_list_eq_foldl (b a : Bytes) :
    _remove_from_list b a = (List.range (b.length / 32)).foldl (removeBody b a) [] := rfl

lemma remove_foldl_aux (a : Bytes) (l : List Bytes) (hl : ∀ c ∈ l, c.length = 32) :
    ∀ acc : Bytes,
      (List.range (l.flatten.length / 32)).foldl (removeBody l.flatten a) acc
        = acc ++ (l.filter fun c => c != a).flatten := by
  induction l with
  | nil => intro acc; simp [removeBody]
  | cons c t ih =>
    intro acc
    have hc : c.length = 32 := hl c (by simp)
    have ht : ∀ x ∈ t, x.length = 32 := fun x hx => hl x (by simp [hx])
    simp only [List.flatten_cons, flatten_cons_length_div c t.flatten hc,
      List.range_succ_eq_map, List.foldl_cons, List.foldl_map]
    have hbody : (fun r i => removeBody (c ++ t.flatten) a r (Nat.succ i))
        = fun r i => removeBody t.flatten a r i := by
      funext r i
      simp only [removeBody,
        show Nat.succ i * 32 = (i + 1) * 32 from rfl, extract_shift c t.flatten hc i]
    rw [hbody]
    have hhead : removeBody (c ++ t.flatten) a acc 0
        = if c ≠ a then acc ++ c else acc := by
      simp only [removeBody, Nat.zero_mul]
      rw [show extract (c ++ t.flatten) 0 32 = c from extract_head c t.flatten hc]
    rw [hhead, ih ht]
    by_cases hca : c = a
    · simp [hca]
    · simp [hca, List.filter_cons, List.append_assoc]

lemma remove_from_list_flatten (l : List Bytes) (hl : ∀ c ∈ l, c.length = 32) (a : Bytes) :
    _remove_from_list l.flatten a = (l.filter fun c => c != a).flatten := by
  rw [remove_from_list_eq_foldl]
  simpa using remove_foldl_aux a l hl []

lemma chunks32_nil : chunks32 [] = [] := by
  rw [chunks32]
  simp

lemma chunks32_flatten (l : List Bytes) (hl : ∀ c ∈ l, c.length = 32) :
    chunks32 l.flatten = l := by
  induction l with
  | nil => simpa using chunks32_nil
  | cons c t ih =>
    have hc : c.length = 32 := hl c (by simp)
    have ht : ∀ x ∈ t, x.length = 32 := fun x hx => hl x (by simp [hx])
    have hne : c ++ t.flatten ≠ [] := by
      intro hemp
      have : c.length = 0 := by
        have := congrArg List.length hemp
        simp only [List.length_append, List.length_nil] at this
        omega
      omega
    rw [List.flatten_cons, chunks32]
    simp only [hne, dite_false]
    rw [show (c ++ t.flatten).take 32 = c from hc ▸ List.take_left c t.flatten,
      show (c ++ t.flatten).drop 32 = t.flatten from hc ▸ List.drop_left c t.flatten,
      ih ht]

lemma flatten_length_32 (l : List Bytes) (hl : ∀ c ∈ l, c.length = 32) :
    l.flatten.length = 32 * l.length := by
  induction l with
  | nil => simp
  | cons c t ih =>
    have hc : c.length = 32 := hl c (by simp)
    have ht : ∀ x ∈ t, x.length = 32 := fun x hx => hl x (by simp [hx])
    simp only [List.flatten_cons, List.length_append, hc, ih ht, List.length_cons]
    ring

lemma listMemB_true_iff (l : List Bytes) (x : Bytes) : listMemB l x = true ↔ x ∈ l := by
  simp only [listMemB, List.any_eq_true, beq_iff_eq]
  constructor
  · rintro ⟨c, hc, rfl⟩; exact hc
  · intro hx; exact ⟨x, hx, rfl⟩

lemma listMemB_append_single (l : List Bytes) (v x : Bytes) :
    listMemB (l ++ [v]) x = (listMemB l x || (v == x)) := by
  simp [listMemB]

lemma listMemB_cons (c : Bytes) (t : List Bytes) (x : Bytes) :
    listMemB (c :: t) x = ((c == x) || listMemB t x) := by simp [listMemB]

lemma listMemB_filter_ne (l : List Bytes) (v x : Bytes) :
    listMemB (l.filter fun c => c != v) x = if v = x then false else listMemB l x := by
  induction l with
  | nil => simp [listMemB]
  | cons c t ih =>
    simp only [List.filter_cons]
    by_cases hcv : c = v
    · have hcond : (c != v) = false := by simp [bne, hcv]
      simp only [hcond, Bool.false_eq_true, if_false, ih]
      by_cases hvx : v = x
      · simp [hvx]
      · have hcx : (c == x) = false := by
          rw [beq_eq_false_iff_ne, hcv]
          exact hvx
        simp [hvx, listMemB_cons, hcx]
    · have hcond : (c != v) = true := by simp [bne_iff_ne, hcv]
      simp only [hcond, if_true, listMemB_cons, ih]
      by_cases hvx : v = x
      · have hcx : (c == x) = false := by
          rw [beq_eq_false_iff_ne]
          intro hh
          exact hcv (hh.trans hvx.symm)
        simp [hvx, hcx]
      · simp [hvx]

/-! ## Verifier-blob representation invariant -/

lemma stateRepr_of_verifiers_eq (s t : ContractState) (l : List Bytes)
    (h : t.verifiers = s.verifiers) (hr : StateRepr s l) : StateRepr t l := by
  unfold StateRepr at *
  rw [h]
  exact hr

lemma is_verifier_of_repr (s : ContractState) (l : List Bytes)
    (h : StateRepr s l) (x : Bytes) : _is_verifier s x = listMemB l x := by
  unfold StateRepr at h
  unfold _is_verifier
  cases hv : s.verifiers with
  | none =>
    rw [hv] at h
    simp only at h
    subst h
    rfl
  | some b =>
    rw [hv] at h
    obtain ⟨hb, _, hlen, _⟩ := h
    subst hb
    exact verifier_in_list_flatten l hlen x

lemma enroll_farmer_verifiers (s : ContractState) (sender : Bytes) (d now : Nat) :
    ((enroll_farmer s sender d now).2).verifiers = s.verifiers := by
  unfold enroll_farmer
  repeat' split
  all_goals rfl

lemma submit_claim_verifiers (s : ContractState) (sender : Bytes) (ph : String) (now : Nat) :
    ((submit_claim s sender ph now).2).verifiers = s.verifiers := by
  unfold submit_claim
  repeat' split
  all_goals rfl

lemma verify_claim_verifiers (s : ContractState) (sender farmer : Bytes)
    (approved : Bool) (now : Nat) :
    ((verify_claim s sender farmer approved now).2).verifiers = s.verifiers := by
  unfold verify_claim
  repeat' split
  all_goals rfl


/-! ## Atomicity: every failing call leaves the state exactly as it found it -/

lemma enroll_farmer_fail (s : ContractState) (sender : Bytes) (d now : Nat)
    (h : ((enroll_farmer s sender d now).1).isSome) :
    (enroll_farmer s sender d now).2 = s := by
  unfold enroll_farmer at h ⊢
  repeat' split at h
  all_goals try simp_all
  all_goals rw [if_neg (by omega)]

lemma submit_claim_fail (s : ContractState) (sender : Bytes) (ph : String) (now : Nat)
    (h : ((submit_claim s sender ph now).1).isSome) :
    (submit_claim s sender ph now).2 = s := by
  unfold submit_claim at h ⊢
  repeat' split at h
  all_goals try simp_all
  all_goals rw [if_neg (by omega)]

lemma verify_claim_fail (s : ContractState) (sender farmer : Bytes)
    (approved : Bool) (now : Nat)
    (h : ((verify_claim s sender farmer approved now).1).isSome) :
    (verify_claim s sender farmer approved now).2 = s := by
  unfold verify_claim at h ⊢
  repeat' split at h
  all_goals simp_all

lemma add_verifier_fail (s : ContractState) (sender v : Bytes)
    (h : ((add_verifier s sender v).1).isSome) :
    (add_verifier s sender v).2 = s := by
  unfold add_verifier at h ⊢
  repeat' split at h
  all_goals simp_all

lemma remove_verifier_fail (s : ContractState) (sender v : Bytes)
    (h : ((remove_verifier s sender v).1).isSome) :
    (remove_verifier s sender v).2 = s := by
  unfold remove_verifier at h ⊢
  by_cases hadm : sender = s.admin
  · cases hv : s.verifiers with
    | none => simp [hadm, hv]
    | some b =>
      by_cases hlt : (_remove_from_list b v).length < b.length
      · by_cases hnil : _remove_from_list b v = []
        · exfalso
          simp [hadm, hv, hlt, hnil] at h
          rw [if_pos (by omega)] at h
          simp at h
        · exfalso
          simp [hadm, hv, hlt, hnil] at h
      · simp [hadm, hv, hlt]
  · simp [hadm]

lemma applyOp_fail (s : ContractState) (op : Op)
    (h : ((applyOp s op).1).isSome) : (applyOp s op).2 = s := by
  cases op with
  | enroll sender d now => exact enroll_farmer_fail s sender d now h
  | submit sender ph now => exact submit_claim_fail s sender ph now h
  | verify sender farmer approved now => exact verify_claim_fail s sender farmer approved now h
  | addVerifier sender v => exact add_verifier_fail s sender v h
  | removeVerifier sender v => exact remove_verifier_fail s sender v h

/-! ## Effect of successful verifier-set updates on the representation -/

lemma add_verifier_success_repr (s : ContractState) (sender v : Bytes) (l : List Bytes)
    (hrep : StateRepr s l) (hv : v.length = 32)
    (hs : ((add_verifier s sender v).1) = none) :
    StateRepr (add_verifier s sender v).2 (l ++ [v]) := by
  unfold add_verifier at hs ⊢
  by_cases hadm : sender = s.admin
  · cases hv2 : s.verifiers with
    | none =>
      have hl : l = [] := by
        unfold StateRepr at hrep
        rw [hv2] at hrep
        exact hrep
      subst hl
      simp only [hadm, if_true, hv2]
      unfold StateRepr
      refine ⟨by simp, by simp, ?_, ?_⟩
      · intro c hc
        simp only [List.nil_append, List.mem_singleton] at hc
        simpa [hc] using hv
      · simp
    | some b =>
      unfold StateRepr at hrep
      rw [hv2] at hrep
      obtain ⟨hb, hne, hlen, hnd⟩ := hrep
      by_cases hmem : _verifier_in_list b v
      · simp [hadm, hv2, hmem] at hs
      · have hvnotin : v ∉ l := by
          intro hvl
          apply hmem
          rw [hb, verifier_in_list_flatten l hlen v]
          exact (listMemB_true_iff l v).mpr hvl
        simp only [hadm, if_true, hv2, hmem, Bool.false_eq_true, if_false]
        unfold StateRepr
        refine ⟨?_, by simp, ?_, ?_⟩
        · rw [hb]
          simp
        · intro c hc
          rcases List.mem_append.mp hc with hcl | hcv
          · exact hlen c hcl
          · simpa [List.mem_singleton.mp hcv] using hv
        · rw [List.nodup_append]
          refine ⟨hnd, List.nodup_singleton v, ?_⟩
          intro a hal hav
          simp only [List.mem_singleton] at hav
          exact hvnotin (hav ▸ hal)
  · simp [hadm] at hs

lemma remove_verifier_success_repr (s : ContractState) (sender v : Bytes) (l : List Bytes)
    (hrep : StateRepr s l)
    (hs : ((remove_verifier s sender v).1) = none) :
    StateRepr (remove_verifier s sender v).2 (l.filter fun c => c != v) := by
  unfold remove_verifier at hs ⊢
  by_cases hadm : sender = s.admin
  · cases hv2 : s.verifiers with
    | none => simp [hadm, hv2] at hs
    | some b =>
      unfold StateRepr at hrep
      rw [hv2] at hrep
      obtain ⟨hb, hne, hlen, hnd⟩ := hrep
      have hflt : ∀ c ∈ (l.filter fun c => c != v), c.length = 32 := by
        intro c hc
        exact hlen c (List.mem_of_mem_filter hc)
      have hrm : _remove_from_list b v = (l.filter fun c => c != v).flatten := by
        rw [hb]
        exact remove_from_list_flatten l hlen v
      by_cases hlt : (_remove_from_list b v).length < b.length
      · by_cases hnil : (_remove_from_list b v).length = 0
        · have hfe : (l.filter fun c => c != v) = [] := by
            have hz : ((l.filter fun c => c != v).flatten).length = 0 := by
              rw [← hrm]
              exact hnil
            rw [flatten_length_32 _ hflt] at hz
            exact List.length_eq_zero.mp (by omega)
          simp only [hadm, if_true, hv2]
          rw [if_pos hlt, if_pos hnil]
          unfold StateRepr
          exact hfe
        · simp only [hadm, if_true, hv2]
          rw [if_pos hlt, if_neg hnil]
          unfold StateRepr
          refine ⟨hrm, ?_, hflt, List.Nodup.filter _ hnd⟩
          intro hfe
          rw [hfe] at hrm
          apply hnil
          rw [hrm]
          rfl
      · simp [hadm, hv2, hlt] at hs
  · simp [hadm] at hs

/-! ## Reachability invariant for the verifier blob -/

lemma stateRepr_init (deployer : Bytes) : StateRepr (createState deployer) [] := rfl

lemma applyOp_repr (s : ContractState) (op : Op) (l : List Bytes)
    (hrep : StateRepr s l) (hop : op.wf) :
    ∃ m, StateRepr (applyOp s op).2 m := by
  cases hfail : (applyOp s op).1 with
  | some e =>
    rw [applyOp_fail s op (by rw [hfail]; rfl)]
    exact ⟨l, hrep⟩
  | none =>
    cases op with
    | enroll sender d now =>
      exact ⟨l, stateRepr_of_verifiers_eq s _ l (enroll_farmer_verifiers s sender d now) hrep⟩
    | submit sender ph now =>
      exact ⟨l, stateRepr_of_verifiers_eq s _ l (submit_claim_verifiers s sender ph now) hrep⟩
    | verify sender farmer approved now =>
      exact ⟨l, stateRepr_of_verifiers_eq s _ l
        (verify_claim_verifiers s sender farmer approved now) hrep⟩
    | addVerifier sender v =>
      exact ⟨l ++ [v], add_verifier_success_repr s sender v l hrep hop.2 hfail⟩
    | removeVerifier sender v =>
      exact ⟨_, remove_verifier_success_repr s sender v l hrep hfail⟩

lemma reachable_repr (s : ContractState) (h : Reachable s) : ∃ l, StateRepr s l := by
  induction h with
  | init d hd => exact ⟨[], stateRepr_init d⟩
  | step s op hr hop ih =>
    obtain ⟨l, hl⟩ := ih
    exact applyOp_repr s op l hl hop

lemma listMemB_append_single_memStep (l : List Bytes) (sender v x : Bytes) :
    listMemB (l ++ [v]) x = memStep x (listMemB l x) (sender, .add v) := by
  rw [listMemB_append_single]
  unfold memStep
  by_cases hvx : v = x
  · simp [hvx]
  · simp [hvx, beq_eq_false_iff_ne.mpr hvx]

lemma listMemB_filter_memStep (l : List Bytes) (sender v x : Bytes) :
    listMemB (l.filter fun c => c != v) x = memStep x (listMemB l x) (sender, .remove v) := by
  rw [listMemB_filter_ne]
  unfold memStep
  rfl

lemma runVOps_is_verifier (ops : List (Bytes × VOp)) :
    ∀ (s : ContractState) (l : List Bytes) (s1 : ContractState),
      StateRepr s l → (∀ p ∈ ops, ((p.2).addr).length = 32) →
      runVOps s ops = some s1 →
      ∀ x, _is_verifier s1 x = ops.foldl (memStep x) (listMemB l x) := by
  induction ops with
  | nil =>
    intro s l s1 hrep hwf hrun x
    have hs : s = s1 := by
      simpa [runVOps] using hrun
    subst hs
    simpa using is_verifier_of_repr s l hrep x
  | cons p rest ih =>
    intro s l s1 hrep hwf hrun x
    cases hq : applyVOp s p with
    | mk e s2 =>
      cases e with
      | some err => simp [runVOps, hq] at hrun
      | none =>
        simp only [runVOps, hq] at hrun
        have hwfrest : ∀ q ∈ rest, ((q.2).addr).length = 32 := by
          intro q hqr
          exact hwf q (List.mem_cons_of_mem p hqr)
        have hwfp : ((p.2).addr).length = 32 := hwf p (List.mem_cons_self p rest)
        rw [List.foldl_cons]
        cases hvop : p.2 with
        | add v =>
          have happ : applyVOp s p = add_verifier s p.1 v := by
            unfold applyVOp
            rw [hvop]
          rw [happ] at hq
          have hsucc : (add_verifier s p.1 v).1 = none := by
            rw [hq]
          have hv32 : v.length = 32 := by
            rw [hvop] at hwfp
            exact hwfp
          have hrep2 : StateRepr s2 (l ++ [v]) := by
            have h2 := add_verifier_success_repr s p.1 v l hrep hv32 hsucc
            rw [hq] at h2
            exact h2
          have hmem : memStep x (listMemB l x) p = listMemB (l ++ [v]) x := by
            rw [listMemB_append_single_memStep l p.1 v x]
            unfold memStep
            rw [hvop]
          rw [hmem]
          exact ih s2 (l ++ [v]) s1 hrep2 hwfrest hrun x
        | remove v =>
          have happ : applyVOp s p = remove_verifier s p.1 v := by
            unfold applyVOp
            rw [hvop]
          rw [happ] at hq
          have hsucc : (remove_verifier s p.1 v).1 = none := by
            rw [hq]
          have hrep2 : StateRepr s2 (l.filter fun c => c != v) := by
            have h2 := remove_verifier_success_repr s p.1 v l hrep hsucc
            rw [hq] at h2
            exact h2
          have hmem : memStep x (listMemB l x) p = listMemB (l.filter fun c => c != v) x := by
            rw [listMemB_filter_memStep l p.1 v x]
            unfold memStep
            rw [hvop]
          rw [hmem]
          exact ih s2 (l.filter fun c => c != v) s1 hrep2 hwfrest hrun x

/-! ## Success shapes of the three record-writing calls -/

lemma updateMap_ne {α : Type} (m : Bytes → Option α) (k : Bytes) (v : α) (a : Bytes)
    (h : a ≠ k) : updateMap m k v a = m a := by
  simp [updateMap, h]

lemma updateMap_self {α : Type} (m : Bytes → Option α) (k : Bytes) (v : α) :
    updateMap m k v k = some v := by
  simp [updateMap]

lemma enroll_farmer_success (s : ContractState) (sender : Bytes) (d now : Nat)
    (s1 : ContractState) (h : enroll_farmer s sender d now = (none, s1)) :
    0 < d ∧ s.enrollments sender = none ∧ now + d * 86400 < uint64Limit ∧
      s1.enrollments = updateMap s.enrollments sender ⟨now, now + d * 86400⟩ ∧
      s1.claims = s.claims ∧ s1.verifiers = s.verifiers ∧ s1.admin = s.admin := by
  unfold enroll_farmer at h
  split at h
  case isTrue h1 =>
    split at h
    case isTrue h2 => simp at h
    case isFalse h2 =>
      split at h
      case isTrue h3 =>
        rw [Prod.mk.injEq] at h
        obtain ⟨-, hs1⟩ := h
        subst hs1
        exact ⟨h1, Option.not_isSome_iff_eq_none.mp h2, h3, rfl, rfl, rfl, rfl⟩
      case isFalse h3 => simp at h
  case isFalse h1 => simp at h

lemma submit_claim_success (s : ContractState) (sender : Bytes) (ph : String) (now : Nat)
    (s1 : ContractState) (h : submit_claim s sender ph now = (none, s1)) :
    ph ≠ "" ∧ ∃ e, s.enrollments sender = some e ∧ now < e.claim_deadline ∧
      s.claims sender = none ∧
      s1.claims = updateMap s.claims sender ⟨ph, 0, now, zeroAddress, 0⟩ ∧
      s1.enrollments = s.enrollments ∧ s1.verifiers = s.verifiers ∧ s1.admin = s.admin := by
  unfold submit_claim at h
  split at h
  case isTrue h1 =>
    split at h
    case h_1 heq => simp at h
    case h_2 e heq =>
      split at h
      case isTrue h2 =>
        split at h
        case isTrue h3 => simp at h
        case isFalse h3 =>
          rw [Prod.mk.injEq] at h
          obtain ⟨-, hs1⟩ := h
          subst hs1
          exact ⟨h1, e, heq, h2, Option.not_isSome_iff_eq_none.mp h3, rfl, rfl, rfl, rfl⟩
      case isFalse h2 => simp at h
  case isFalse h1 => simp at h

lemma verify_claim_success (s : ContractState) (sender farmer : Bytes)
    (approved : Bool) (now : Nat) (s1 : ContractState)
    (h : verify_claim s sender farmer approved now = (none, s1)) :
    _is_verifier s sender = true ∧ ∃ c, s.claims farmer = some c ∧ c.status = 0 ∧
      s1.claims = updateMap s.claims farmer
        ⟨c.proof_hash, if approved then 1 else 2, c.submission_timestamp, sender, now⟩ ∧
      s1.enrollments = s.enrollments ∧ s1.verifiers = s.verifiers ∧ s1.admin = s.admin := by
  unfold verify_claim at h
  split at h
  case isTrue h1 =>
    split at h
    case h_1 heq => simp at h
    case h_2 c heq =>
      split at h
      case isTrue h2 =>
        rw [Prod.mk.injEq] at h
        obtain ⟨-, hs1⟩ := h
        subst hs1
        exact ⟨h1, c, heq, h2, rfl, rfl, rfl, rfl⟩
      case isFalse h2 => simp at h
  case isFalse h1 => simp at h

/-! ## Frame lemmas: which maps each call can touch -/

lemma enroll_farmer_claims (s : ContractState) (sender : Bytes) (d now : Nat) :
    ((enroll_farmer s sender d now).2).claims = s.claims := by
  unfold enroll_farmer
  repeat' split
  all_goals rfl

lemma add_verifier_claims (s : ContractState) (sender v : Bytes) :
    ((add_verifier s sender v).2).claims = s.claims := by
  unfold add_verifier
  repeat' split
  all_goals rfl

lemma remove_verifier_claims (s : ContractState) (sender v : Bytes) :
    ((remove_verifier s sender v).2).claims = s.claims := by
  unfold remove_verifier
  dsimp only
  repeat' split
  all_goals rfl

lemma submit_claim_enrollments (s : ContractState) (sender : Bytes) (ph : String) (now : Nat) :
    ((submit_claim s sender ph now).2).enrollments = s.enrollments := by
  unfold submit_claim
  repeat' split
  all_goals rfl

lemma verify_claim_enrollments (s : ContractState) (sender farmer : Bytes)
    (approved : Bool) (now : Nat) :
    ((verify_claim s sender farmer approved now).2).enrollments = s.enrollments := by
  unfold verify_claim
  repeat' split
  all_goals rfl

lemma add_verifier_enrollments (s : ContractState) (sender v : Bytes) :
    ((add_verifier s sender v).2).enrollments = s.enrollments := by
  unfold add_verifier
  repeat' split
  all_goals rfl

lemma remove_verifier_enrollments (s : ContractState) (sender v : Bytes) :
    ((remove_verifier s sender v).2).enrollments = s.enrollments := by
  unfold remove_verifier
  dsimp only
  repeat' split
  all_goals rfl

/-! ## Permanence lemmas across all public operations -/

lemma applyOp_terminal_claim (s : ContractState) (op : Op) (id : Bytes) (c : Claim)
    (hc : s.claims id = some c) (hst : c.status ≠ 0) :
    ((applyOp s op).2).claims id = some c := by
  cases hout : (applyOp s op).1 with
  | some e =>
    rw [applyOp_fail s op (by rw [hout]; rfl)]
    exact hc
  | none =>
    cases op with
    | enroll sender d now =>
      show ((enroll_farmer s sender d now).2).claims id = some c
      rw [enroll_farmer_claims]
      exact hc
    | submit sender ph now =>
      have h : submit_claim s sender ph now = (none, (submit_claim s sender ph now).2) :=
        Prod.ext hout rfl
      obtain ⟨-, e, -, -, hnone, hcl, -, -, -⟩ := submit_claim_success s sender ph now _ h
      show ((submit_claim s sender ph now).2).claims id = some c
      rw [hcl]
      have hid : id ≠ sender := by
        intro heq
        rw [heq, hnone] at hc
        exact Option.noConfusion hc
      rw [updateMap_ne _ _ _ _ hid]
      exact hc
    | verify sender farmer approved now =>
      have h : verify_claim s sender farmer approved now
          = (none, (verify_claim s sender farmer approved now).2) :=
        Prod.ext hout rfl
      obtain ⟨-, c0, hc0, hst0, hcl, -, -, -⟩ := verify_claim_success s sender farmer
        approved now _ h
      show ((verify_claim s sender farmer approved now).2).claims id = some c
      rw [hcl]
      have hid : id ≠ farmer := by
        intro heq
        rw [heq, hc0] at hc
        have : c0 = c := by
          injection hc
        rw [this] at hst0
        exact hst hst0
      rw [updateMap_ne _ _ _ _ hid]
      exact hc
    | addVerifier sender v =>
      show ((add_verifier s sender v).2).claims id = some c
      rw [add_verifier_claims]
      exact hc
    | removeVerifier sender v =>
      show ((remove_verifier s sender v).2).claims id = some c
      rw [remove_verifier_claims]
      exact hc

lemma applyOp_enrollment_permanent (s : ContractState) (op : Op) (id : Bytes) (e : Enrollment)
    (he : s.enrollments id = some e) :
    ((applyOp s op).2).enrollments id = some e := by
  cases hout : (applyOp s op).1 with
  | some err =>
    rw [applyOp_fail s op (by rw [hout]; rfl)]
    exact he
  | none =>
    cases op with
    | enroll sender d now =>
      have h : enroll_farmer s sender d now = (none, (enroll_farmer s sender d now).2) :=
        Prod.ext hout rfl
      obtain ⟨-, hnone, -, hen, -, -, -⟩ := enroll_farmer_success s sender d now _ h
      show ((enroll_farmer s sender d now).2).enrollments id = some e
      rw [hen]
      have hid : id ≠ sender := by
        intro heq
        rw [heq, hnone] at he
        exact Option.noConfusion he
      rw [updateMap_ne _ _ _ _ hid]
      exact he
    | submit sender ph now =>
      show ((submit_claim s sender ph now).2).enrollments id = some e
      rw [submit_claim_enrollments]
      exact he
    | verify sender farmer approved now =>
      show ((verify_claim s sender farmer approved now).2).enrollments id = some e
      rw [verify_claim_enrollments]
      exact he
    | addVerifier sender v =>
      show ((add_verifier s sender v).2).enrollments id = some e
      rw [add_verifier_enrollments]
      exact he
    | removeVerifier sender v =>
      show ((remove_verifier s sender v).2).enrollments id = some e
      rw [remove_verifier_enrollments]
      exact he

lemma applyOp_claim_creation (s : ContractState) (op : Op) (id : Bytes) (c : Claim)
    (h0 : s.claims id = none) (h1 : ((applyOp s op).2).claims id = some c) :
    (∃ ph now, op = Op.submit id ph now) ∧ c.status = 0 := by
  cases hout : (applyOp s op).1 with
  | some e =>
    rw [applyOp_fail s op (by rw [hout]; rfl), h0] at h1
    exact Option.noConfusion h1
  | none =>
    cases op with
    | enroll sender d now =>
      rw [show ((applyOp s (Op.enroll sender d now)).2).claims
        = ((enroll_farmer s sender d now).2).claims from rfl, enroll_farmer_claims, h0] at h1
      exact Option.noConfusion h1
    | submit sender ph now =>
      have h : submit_claim s sender ph now = (none, (submit_claim s sender ph now).2) :=
        Prod.ext hout rfl
      obtain ⟨-, e, -, -, hnone, hcl, -, -, -⟩ := submit_claim_success s sender ph now _ h
      rw [show ((applyOp s (Op.submit sender ph now)).2).claims
        = ((submit_claim s sender ph now).2).claims from rfl, hcl] at h1
      by_cases hid : id = sender
      · subst hid
        rw [updateMap_self] at h1
        have hcc : c = ⟨ph, 0, now, zeroAddress, 0⟩ := by
          injection h1 with h1
          exact h1.symm
        exact ⟨⟨ph, now, rfl⟩, by rw [hcc]⟩
      · rw [updateMap_ne _ _ _ _ hid, h0] at h1
        exact Option.noConfusion h1
    | verify sender farmer approved now =>
      have h : verify_claim s sender farmer approved now
          = (none, (verify_claim s sender farmer approved now).2) :=
        Prod.ext hout rfl
      obtain ⟨-, c0, hc0, -, hcl, -, -, -⟩ := verify_claim_success s sender farmer
        approved now _ h
      rw [show ((applyOp s (Op.verify sender farmer approved now)).2).claims
        = ((verify_claim s sender farmer approved now).2).claims from rfl, hcl] at h1
      by_cases hid : id = farmer
      · rw [hid, hc0] at h0
        exact Option.noConfusion h0
      · rw [updateMap_ne _ _ _ _ hid, h0] at h1
        exact Option.noConfusion h1
    | addVerifier sender v =>
      rw [show ((applyOp s (Op.addVerifier sender v)).2).claims
        = ((add_verifier s sender v).2).claims from rfl, add_verifier_claims, h0] at h1
      exact Option.noConfusion h1
    | removeVerifier sender v =>
      rw [show ((applyOp s (Op.removeVerifier sender v)).2).claims
        = ((remove_verifier s sender v).2).claims from rfl, remove_verifier_claims, h0] at h1
      exact Option.noConfusion h1

/-! ## Behaviour at specific preconditions -/

lemma verify_claim_not_pending (s : ContractState) (sender farmer : Bytes) (c : Claim)
    (approved : Bool) (now : Nat)
    (hc : s.claims farmer = some c) (hst : c.status ≠ 0)
    (hver : _is_verifier s sender = true) :
    verify_claim s sender farmer approved now = (some .ClaimNotPending, s) := by
  unfold verify_claim
  simp [hver, hc, hst]

lemma submit_claim_blocked (s : ContractState) (sender : Bytes) (ph : String) (now : Nat)
    (c : Claim) (hc : s.claims sender = some c) :
    ((submit_claim s sender ph now).1).isSome ∧ (submit_claim s sender ph now).2 = s := by
  have hfail : ((submit_claim s sender ph now).1).isSome := by
    cases hout : (submit_claim s sender ph now).1 with
    | some e => rfl
    | none =>
      have h : submit_claim s sender ph now = (none, (submit_claim s sender ph now).2) :=
        Prod.ext hout rfl
      obtain ⟨-, e, -, -, hnone, -⟩ := submit_claim_success s sender ph now _ h
      rw [hc] at hnone
      exact Option.noConfusion hnone
  exact ⟨hfail, submit_claim_fail s sender ph now hfail⟩

lemma submit_claim_duplicate (s : ContractState) (sender : Bytes) (ph : String) (now : Nat)
    (c : Claim) (e : Enrollment) (hc : s.claims sender = some c)
    (hph : ph ≠ "") (he : s.enrollments sender = some e) (hlt : now < e.claim_deadline) :
    submit_claim s sender ph now = (some .DuplicateClaim, s) := by
  unfold submit_claim
  simp [hph, he, hlt, hc]

lemma submit_claim_empty_hash (s : ContractState) (sender : Bytes) (ph : String)
    (now : Nat) (hph : ph = "") :
    submit_claim s sender ph now = (some .InvalidProofHash, s) := by
  unfold submit_claim
  simp [hph]

lemma submit_claim_not_enrolled (s : ContractState) (sender : Bytes) (ph : String)
    (now : Nat) (hph : ph ≠ "") (he : s.enrollments sender = none) :
    submit_claim s sender ph now = (some .NotEnrolled, s) := by
  unfold submit_claim
  simp [hph, he]

lemma submit_claim_past_deadline (s : ContractState) (sender : Bytes) (ph : String)
    (now : Nat) (e : Enrollment) (hph : ph ≠ "")
    (he : s.enrollments sender = some e) (hge : e.claim_deadline ≤ now) :
    submit_claim s sender ph now = (some .DeadlinePassed, s) := by
  unfold submit_claim
  simp [hph, he, Nat.not_lt.mpr hge]

lemma enroll_farmer_already (s : ContractState) (sender : Bytes) (d now : Nat)
    (e : Enrollment) (he : s.enrollments sender = some e) :
    (0 < d → enroll_farmer s sender d now = (some .AlreadyEnrolled, s)) ∧
      (d = 0 → enroll_farmer s sender d now = (some .InvalidDeadline, s)) := by
  constructor
  · intro hd
    unfold enroll_farmer
    simp [hd, he]
  · intro hd
    unfold enroll_farmer
    simp [hd]

lemma submit_claim_deadline_boundary (s : ContractState) (sender : Bytes) (ph : String)
    (now : Nat) (e : Enrollment)
    (hph : ph ≠ "") (he : s.enrollments sender = some e) (hnc : s.claims sender = none) :
    ((submit_claim s sender ph now).1 = some Err.DeadlinePassed ↔ e.claim_deadline ≤ now) ∧
      (now < e.claim_deadline →
        (submit_claim s sender ph now).1 = none ∧
        ((submit_claim s sender ph now).2).claims sender = some ⟨ph, 0, now, zeroAddress, 0⟩) := by
  by_cases hlt : now < e.claim_deadline
  · have h1 : (submit_claim s sender ph now).1 = none := by
      unfold submit_claim
      simp [hph, he, hlt, hnc]
    refine ⟨?_, fun _ => ⟨h1, ?_⟩⟩
    · rw [h1]
      constructor
      · intro hcontra
        exact Option.noConfusion hcontra
      · intro hle
        omega
    · unfold submit_claim
      simp [hph, he, hlt, hnc, updateMap_self]
  · have h1 : (submit_claim s sender ph now).1 = some Err.DeadlinePassed := by
      unfold submit_claim
      simp [hph, he, hlt]
    refine ⟨?_, fun hlt2 => absurd hlt2 hlt⟩
    rw [h1]
    simp only [Option.some.injEq, true_iff]
    omega

/-! ## Round trip and canonical-empty facts for the verifier set -/

lemma remove_from_list_self (v : Bytes) (hv : v.length = 32) :
    _remove_from_list v v = [] := by
  have hfl : ([v] : List Bytes).flatten = v := by simp
  have h32 : ∀ c ∈ ([v] : List Bytes), c.length = 32 := by
    intro c hc
    simp only [List.mem_singleton] at hc
    rw [hc]
    exact hv
  calc _remove_from_list v v
      = _remove_from_list ([v] : List Bytes).flatten v := by rw [hfl]
    _ = (([v] : List Bytes).filter fun c => c != v).flatten :=
        remove_from_list_flatten [v] h32 v
    _ = [] := by simp

lemma add_remove_round_trip (s : ContractState) (sender v : Bytes)
    (hempty : s.verifiers = none) (hv : v.length = 32) (hadm : sender = s.admin) :
    (add_verifier s sender v).1 = none ∧
      (remove_verifier (add_verifier s sender v).2 sender v).1 = none ∧
      ((remove_verifier (add_verifier s sender v).2 sender v).2).verifiers = none := by
  have hadd : add_verifier s sender v = (none, { s with verifiers := some v }) := by
    unfold add_verifier
    simp [hadm, hempty]
  rw [hadd]
  have hrm : _remove_from_list v v = [] := remove_from_list_self v hv
  have hlt : (_remove_from_list v v).length < v.length := by
    rw [hrm, hv]
    norm_num
  have hvne : v ≠ [] := by
    intro hcontra
    rw [hcontra] at hv
    simp at hv
  have hremove : remove_verifier ({ s with verifiers := some v }) sender v
      = (none, { s with verifiers := none }) := by
    unfold remove_verifier
    simp [hadm, hrm, hlt, hvne]
  rw [hremove]
  exact ⟨rfl, rfl, rfl⟩

lemma remove_verifier_nonmember (s : ContractState) (sender v : Bytes) (l : List Bytes)
    (hrep : StateRepr s l) (hadm : sender = s.admin)
    (hnm : _is_verifier s v = false) :
    remove_verifier s sender v = (some Err.VerifierNotFound, s) := by
  unfold remove_verifier
  cases hv2 : s.verifiers with
  | none => simp [hadm, hv2]
  | some b =>
    unfold StateRepr at hrep
    rw [hv2] at hrep
    obtain ⟨hb, hne, hlen, hnd⟩ := hrep
    have hmem : listMemB l v = false := by
      rw [← is_verifier_of_repr s l
        (by unfold StateRepr; rw [hv2]; exact ⟨hb, hne, hlen, hnd⟩) v]
      exact hnm
    have hvnotin : v ∉ l := by
      intro hin
      rw [(listMemB_true_iff l v).mpr hin] at hmem
      exact Bool.noConfusion hmem
    have hfilter : (l.filter fun c => c != v) = l := by
      apply List.filter_eq_self.mpr
      intro a ha
      simp only [bne_iff_ne, ne_eq, decide_not, decide_eq_true_eq, Decidable.not_not]
      intro hav
      exact hvnotin (hav ▸ ha)
    have hrm : _remove_from_list b v = b := by
      rw [hb, remove_from_list_flatten l hlen v, hfilter]
    have hnlt : ¬ (_remove_from_list b v).length < b.length := by
      rw [hrm]
      exact lt_irrefl _
    simp [hadm, hv2, hnlt]

lemma reachable_no_empty_blob (s : ContractState) (h : Reachable s) :
    s.verifiers ≠ some [] := by
  obtain ⟨l, hrep⟩ := reachable_repr s h
  intro hsome
  unfold StateRepr at hrep
  rw [hsome] at hrep
  obtain ⟨hb, hne, hlen, -⟩ := hrep
  have hz : (l.flatten).length = 0 := by
    rw [← hb]
    rfl
  rw [flatten_length_32 l hlen] at hz
  have : l.length = 0 := by omega
  exact hne (List.length_eq_zero.mp this)

/-! ## Well-formedness of any reachable verifier blob -/

lemma reachable_blob_wf (s : ContractState) (h : Reachable s) (b : Bytes)
    (hb : s.verifiers = some b) :
    b ≠ [] ∧ b.length % 32 = 0 ∧ (∀ c ∈ chunks32 b, c.length = 32) ∧ (chunks32 b).Nodup ∧
      ∀ v, _verifier_in_list b v = true →
        _remove_from_list b v = ((chunks32 b).erase v).flatten ∧
        (_remove_from_list b v).length + 32 = b.length := by
  obtain ⟨l, hrep⟩ := reachable_repr s h
  unfold StateRepr at hrep
  rw [hb] at hrep
  obtain ⟨hbl, hne, hlen, hnd⟩ := hrep
  have hch : chunks32 b = l := by
    rw [hbl]
    exact chunks32_flatten l hlen
  have hblen : b.length = 32 * l.length := by
    rw [hbl]
    exact flatten_length_32 l hlen
  have hlpos : 0 < l.length := List.length_pos.mpr hne
  refine ⟨?_, ?_, ?_, ?_, ?_⟩
  · intro hbe
    rw [hbe] at hblen
    simp only [List.length_nil] at hblen
    omega
  · rw [hblen]
    exact Nat.mul_mod_right 32 _
  · rw [hch]
    exact hlen
  · rw [hch]
    exact hnd
  · intro v hv
    have hvin : v ∈ l := by
      rw [hbl, verifier_in_list_flatten l hlen v] at hv
      exact (listMemB_true_iff l v).mp hv
    have herase : l.erase v = l.filter fun c => c != v := List.Nodup.erase_eq_filter hnd v
    have hrm : _remove_from_list b v = (l.filter fun c => c != v).flatten := by
      rw [hbl]
      exact remove_from_list_flatten l hlen v
    constructor
    · rw [hch, herase, hrm]
    · have hfl : ∀ c ∈ (l.filter fun c => c != v), c.length = 32 := by
        intro c hc
        exact hlen c (List.mem_of_mem_filter hc)
      have herlen : (l.filter fun c => c != v).length = l.length - 1 := by
        rw [← herase]
        exact List.length_erase_of_mem hvin
      rw [hrm, flatten_length_32 _ hfl, herlen, hblen]
      omega

/-! ## The specification claims -/

/-- Claim C3 (confirmed): for every public operation and every starting
state, a call that fails any precondition check leaves the entire persistent
state (enrollments, claims, verifier blob, admin) unchanged — no partial
writes survive. -/
theorem C3_atomic_failure :
    ∀ (s : ContractState) (op : Op) (e : Err) (s1 : ContractState),
      applyOp s op = (some e, s1) → s1 = s := by
  intro s op e s1 h
  have h1 : ((applyOp s op).1).isSome := by
    rw [h]
    rfl
  have h2 := applyOp_fail s op h1
  rw [h] at h2
  exact h2

/-- Witness for C3 at a concrete failing call: submitting with no enrollment
fails `NotEnrolled` and returns the starting state. -/
theorem C3_witness :
    applyOp demo0 (Op.submit farmerA hashOne 5) = (some Err.NotEnrolled, demo0) ∧
      demo0 = demo0 := by
  have happ : applyOp demo0 (Op.submit farmerA hashOne 5) = (some Err.NotEnrolled, demo0) := rfl
  exact ⟨happ, C3_atomic_failure demo0 (Op.submit farmerA hashOne 5) Err.NotEnrolled demo0 happ⟩

/-- Claim C4 (confirmed): for an enrolled caller with non-empty proof hash
and no existing claim record, `submit_claim` fails `DeadlinePassed` exactly
when `now ≥ claim_deadline` (equality included); when `now < claim_deadline`
it succeeds and stores a PENDING claim with `submission_timestamp = now`,
the given proof hash and zero verifier fields. -/
theorem C4_deadline_boundary :
    ∀ (s : ContractState) (sender : Bytes) (ph : String) (now : Nat) (e : Enrollment),
      s.enrollments sender = some e → ph ≠ "" → s.claims sender = none →
      (((submit_claim s sender ph now).1 = some Err.DeadlinePassed) ↔ e.claim_deadline ≤ now) ∧
      (now < e.claim_deadline →
        (submit_claim s sender ph now).1 = none ∧
        ((submit_claim s sender ph now).2).claims sender = some ⟨ph, 0, now, zeroAddress, 0⟩) :=
  fun s sender ph now e he hph hnc => submit_claim_deadline_boundary s sender ph now e hph he hnc

/-- Witness for C4: at the exact deadline the call fails `DeadlinePassed`;
strictly before it the PENDING record is created. -/
theorem C4_witness :
    (demo1.enrollments farmerA = some ⟨1000, 2593000⟩ ∧ hashOne ≠ "" ∧
      demo1.claims farmerA = none) ∧
    (submit_claim demo1 farmerA hashOne 2593000).1 = some Err.DeadlinePassed ∧
    ((submit_claim demo1 farmerA hashOne 2000).1 = none ∧
      ((submit_claim demo1 farmerA hashOne 2000).2).claims farmerA
        = some ⟨hashOne, 0, 2000, zeroAddress, 0⟩) := by
  have h1 := C4_deadline_boundary demo1 farmerA hashOne 2593000 ⟨1000, 2593000⟩
    (by decide) (by decide) (by decide)
  have h2 := C4_deadline_boundary demo1 farmerA hashOne 2000 ⟨1000, 2593000⟩
    (by decide) (by decide) (by decide)
  exact ⟨⟨by decide, by decide, by decide⟩, h1.1.mpr (by decide), h2.2 (by decide)⟩

/-- Claim C5 counterexample: `farmerA` is already enrolled in `demo1`, yet a
second `enroll_farmer` with `deadline_days = 0` fails `InvalidDeadline`, not
`AlreadyEnrolled` — the zero-deadline check runs first. -/
theorem C5_counterexample :
    demo1.enrollments farmerA = some ⟨1000, 2593000⟩ ∧
      (enroll_farmer demo1 farmerA 0 5000).1 = some Err.InvalidDeadline ∧
      Err.InvalidDeadline ≠ Err.AlreadyEnrolled :=
  ⟨by decide, by decide, by decide⟩

/-- Claim C5 (amended): a second `enroll_farmer` for an enrolled identity
fails `AlreadyEnrolled` for every `deadline_days > 0`; with
`deadline_days = 0` it fails `InvalidDeadline` instead (the validation check
precedes the duplicate check).  Either way the state is unchanged. -/
theorem C5_already_enrolled :
    ∀ (s : ContractState) (sender : Bytes) (d now : Nat) (e : Enrollment),
      s.enrollments sender = some e →
      (0 < d → enroll_farmer s sender d now = (some Err.AlreadyEnrolled, s)) ∧
      (d = 0 → enroll_farmer s sender d now = (some Err.InvalidDeadline, s)) :=
  fun s sender d now e he => enroll_farmer_already s sender d now e he

/-- Witness for C5 at `demo1`: both error behaviours at a concrete state. -/
theorem C5_witness :
    demo1.enrollments farmerA = some ⟨1000, 2593000⟩ ∧
      enroll_farmer demo1 farmerA 7 99999 = (some Err.AlreadyEnrolled, demo1) ∧
      enroll_farmer demo1 farmerA 0 99999 = (some Err.InvalidDeadline, demo1) := by
  have h1 := C5_already_enrolled demo1 farmerA 7 99999 ⟨1000, 2593000⟩ (by decide)
  have h2 := C5_already_enrolled demo1 farmerA 0 99999 ⟨1000, 2593000⟩ (by decide)
  exact ⟨by decide, h1.1 (by decide), h2.2 rfl⟩

/-- Claim C9 (confirmed): a successful `enroll_farmer` stores
`enrollment_timestamp = now` and `claim_deadline = now + deadline_days * 86400`
exactly; with `deadline_days = 30` this is `now + 2592000`; and an enrollment
record, once present, is never changed by any later public operation. -/
theorem C9_enrollment_arithmetic :
    (∀ (s : ContractState) (sender : Bytes) (d now : Nat) (s1 : ContractState),
      enroll_farmer s sender d now = (none, s1) →
      s1.enrollments sender = some ⟨now, now + d * 86400⟩) ∧
    (∀ (s : ContractState) (sender : Bytes) (now : Nat) (s1 : ContractState),
      enroll_farmer s sender 30 now = (none, s1) →
      s1.enrollments sender = some ⟨now, now + 2592000⟩) ∧
    (∀ (s : ContractState) (op : Op) (id : Bytes) (e : Enrollment),
      s.enrollments id = some e → ((applyOp s op).2).enrollments id = some e) := by
  refine ⟨?_, ?_, applyOp_enrollment_permanent⟩
  · intro s sender d now s1 h
    obtain ⟨-, -, -, hen, -, -, -⟩ := enroll_farmer_success s sender d now s1 h
    rw [hen, updateMap_self]
  · intro s sender now s1 h
    obtain ⟨-, -, -, hen, -, -, -⟩ := enroll_farmer_success s sender 30 now s1 h
    rw [hen, updateMap_self]

/-- Witness for C9 at the demonstration enrollment. -/
theorem C9_witness :
    enroll_farmer demo0 farmerA 30 1000 = (none, demo1) ∧
      demo1.enrollments farmerA = some ⟨1000, 1000 + 30 * 86400⟩ ∧
      demo1.enrollments farmerA = some ⟨1000, 1000 + 2592000⟩ ∧
      ((applyOp demo1 (Op.submit farmerA hashOne 2000)).2).enrollments farmerA
        = some ⟨1000, 2593000⟩ := by
  have hrun : enroll_farmer demo0 farmerA 30 1000 = (none, demo1) := rfl
  refine ⟨hrun, C9_enrollment_arithmetic.1 demo0 farmerA 30 1000 demo1 hrun,
    C9_enrollment_arithmetic.2.1 demo0 farmerA 1000 demo1 hrun,
    C9_enrollment_arithmetic.2.2 demo1 (Op.submit farmerA hashOne 2000) farmerA
      ⟨1000, 2593000⟩ (by decide)⟩

/-- Claim C1 counterexample: after `verifierV` successfully decided
`farmerA`'s claim, a second `verify_claim` on the same identity by the
non-verifier `outsiderW` fails `NotVerifier`, not `ClaimNotPending` — the
authorization check runs first, so the claim as stated is false. -/
theorem C1_counterexample :
    (verify_claim demo3 verifierV farmerA true 3000).1 = none ∧
      demo4.claims farmerA = some ⟨hashOne, 1, 2000, verifierV, 3000⟩ ∧
      (verify_claim demo4 outsiderW farmerA false 4000).1 = some Err.NotVerifier ∧
      Err.NotVerifier ≠ Err.ClaimNotPending :=
  ⟨by decide, by decide, by decide, by decide⟩

/-- Claim C1 (amended): the claim lifecycle state machine.  (i) A claim
record appears only through `submit_claim` by its own identity, and only
with status PENDING (0).  (ii) A successful `verify_claim` starts from a
PENDING record and sets status APPROVED (1) if `approved` else REJECTED (2).
(iii) Once a record's status is not PENDING, no public operation ever
changes that record again.  (iv) A second `verify_claim` on the same
identity by a caller who is then a verifier fails `ClaimNotPending`,
independent of the new `approved` argument (a non-verifier caller fails
`NotVerifier` instead, per the counterexample). -/
theorem C1_lifecycle :
    (∀ (s : ContractState) (op : Op) (id : Bytes) (c : Claim),
      s.claims id = none → ((applyOp s op).2).claims id = some c →
      (∃ ph now, op = Op.submit id ph now) ∧ c.status = 0) ∧
    (∀ (s : ContractState) (sender farmer : Bytes) (approved : Bool) (now : Nat)
      (s1 : ContractState), verify_claim s sender farmer approved now = (none, s1) →
      ∃ c, s.claims farmer = some c ∧ c.status = 0 ∧
        s1.claims farmer = some ⟨c.proof_hash, if approved then 1 else 2,
          c.submission_timestamp, sender, now⟩) ∧
    (∀ (s : ContractState) (op : Op) (id : Bytes) (c : Claim),
      s.claims id = some c → c.status ≠ 0 → ((applyOp s op).2).claims id = some c) ∧
    (∀ (s : ContractState) (sender farmer : Bytes) (c : Claim) (approved : Bool) (now : Nat),
      s.claims farmer = some c → c.status ≠ 0 → _is_verifier s sender = true →
      verify_claim s sender farmer approved now = (some Err.ClaimNotPending, s)) := by
  refine ⟨applyOp_claim_creation, ?_, applyOp_terminal_claim, ?_⟩
  · intro s sender farmer approved now s1 h
    obtain ⟨-, c, hc, hst, hcl, -, -, -⟩ := verify_claim_success s sender farmer approved now s1 h
    refine ⟨c, hc, hst, ?_⟩
    rw [hcl, updateMap_self]
  · intro s sender farmer c approved now hc hst hver
    exact verify_claim_not_pending s sender farmer c approved now hc hst hver

/-- Witness for C1: each conjunct instantiated on the demonstration run. -/
theorem C1_witness :
    ((∃ ph now, Op.submit farmerA hashOne 2000 = Op.submit farmerA ph now) ∧
      (⟨hashOne, 0, 2000, zeroAddress, 0⟩ : Claim).status = 0) ∧
    (∃ c, demo3.claims farmerA = some c ∧ c.status = 0 ∧
      demo4.claims farmerA = some ⟨c.proof_hash, if true then 1 else 2,
        c.submission_timestamp, verifierV, 3000⟩) ∧
    ((applyOp demo4 (Op.verify verifierV farmerA false 4000)).2).claims farmerA
      = some ⟨hashOne, 1, 2000, verifierV, 3000⟩ ∧
    verify_claim demo4 verifierV farmerA false 4000 = (some Err.ClaimNotPending, demo4) := by
  refine ⟨C1_lifecycle.1 demo1 (Op.submit farmerA hashOne 2000) farmerA
      ⟨hashOne, 0, 2000, zeroAddress, 0⟩ (by decide) (by decide),
    C1_lifecycle.2.1 demo3 verifierV farmerA true 3000 demo4 rfl,
    C1_lifecycle.2.2.1 demo4 (Op.verify verifierV farmerA false 4000) farmerA
      ⟨hashOne, 1, 2000, verifierV, 3000⟩ (by decide) (by decide),
    C1_lifecycle.2.2.2 demo4 verifierV farmerA ⟨hashOne, 1, 2000, verifierV, 3000⟩
      false 4000 (by decide) (by decide) (by decide)⟩

/-- Claim C2 counterexample: `farmerA` has a claim record in `demo2`, yet a
later `submit_claim` after the deadline fails `DeadlinePassed`, not
`DuplicateClaim` — the deadline check runs before the duplicate check, so
"every subsequent submit_claim fails DuplicateClaim" is false as stated. -/
theorem C2_counterexample :
    demo2.claims farmerA = some ⟨hashOne, 0, 2000, zeroAddress, 0⟩ ∧
      (submit_claim demo2 farmerA hashTwo 3000000).1 = some Err.DeadlinePassed ∧
      Err.DeadlinePassed ≠ Err.DuplicateClaim :=
  ⟨by decide, by decide, by decide⟩

/-- Claim C2 (amended): while a claim record exists for an identity —
whatever its status — every subsequent `submit_claim` by that identity
fails and creates or changes nothing, so a farmer whose claim was REJECTED
can never submit again; the failure is `DuplicateClaim` exactly when the
earlier checks pass (non-empty proof hash, an enrollment record, and `now`
before the claim deadline), and otherwise it is that earlier check's error:
`InvalidProofHash` for an empty proof hash, `NotEnrolled` when no enrollment
record exists, `DeadlinePassed` when `now ≥ claim_deadline`. -/
theorem C2_duplicate_permanence :
    ∀ (s : ContractState) (sender : Bytes) (c : Claim), s.claims sender = some c →
      ∀ (ph : String) (now : Nat),
        (((submit_claim s sender ph now).1).isSome ∧ (submit_claim s sender ph now).2 = s) ∧
        ((submit_claim s sender ph now).1 = some Err.DuplicateClaim ↔
          (ph ≠ "" ∧ ∃ e, s.enrollments sender = some e ∧ now < e.claim_deadline)) ∧
        (ph = "" → submit_claim s sender ph now = (some Err.InvalidProofHash, s)) ∧
        (ph ≠ "" → s.enrollments sender = none →
          submit_claim s sender ph now = (some Err.NotEnrolled, s)) ∧
        (ph ≠ "" → ∀ e, s.enrollments sender = some e → e.claim_deadline ≤ now →
          submit_claim s sender ph now = (some Err.DeadlinePassed, s)) := by
  intro s sender c hc ph now
  refine ⟨submit_claim_blocked s sender ph now c hc, ⟨?_, ?_⟩,
    fun hph => submit_claim_empty_hash s sender ph now hph,
    fun hph he => submit_claim_not_enrolled s sender ph now hph he,
    fun hph e he hge => submit_claim_past_deadline s sender ph now e hph he hge⟩
  · intro hdup
    by_cases hph : ph = ""
    · rw [submit_claim_empty_hash s sender ph now hph] at hdup
      simp at hdup
    · cases he : s.enrollments sender with
      | none =>
        rw [submit_claim_not_enrolled s sender ph now hph he] at hdup
        simp at hdup
      | some e =>
        by_cases hlt : now < e.claim_deadline
        · exact ⟨hph, e, rfl, hlt⟩
        · rw [submit_claim_past_deadline s sender ph now e hph he (by omega)] at hdup
          simp at hdup
  · rintro ⟨hph, e, he, hlt⟩
    rw [submit_claim_duplicate s sender ph now c e hc hph he hlt]

/-- Witness for C2: at `demo2` a resubmission before the deadline fails
`DuplicateClaim` with the state unchanged, an empty proof hash fails
`InvalidProofHash`, a resubmission after the deadline fails `DeadlinePassed`,
and at the claim-without-enrollment state `demoX` it fails `NotEnrolled`. -/
theorem C2_witness :
    demo2.claims farmerA = some ⟨hashOne, 0, 2000, zeroAddress, 0⟩ ∧
      demoX.claims farmerA = some ⟨hashOne, 0, 2000, zeroAddress, 0⟩ ∧
      (((submit_claim demo2 farmerA hashTwo 2500).1).isSome ∧
        (submit_claim demo2 farmerA hashTwo 2500).2 = demo2) ∧
      (submit_claim demo2 farmerA hashTwo 2500).1 = some Err.DuplicateClaim ∧
      submit_claim demo2 farmerA hashEmpty 2500 = (some Err.InvalidProofHash, demo2) ∧
      submit_claim demo2 farmerA hashTwo 3000000 = (some Err.DeadlinePassed, demo2) ∧
      submit_claim demoX farmerA hashTwo 2500 = (some Err.NotEnrolled, demoX) := by
  have h := C2_duplicate_permanence demo2 farmerA ⟨hashOne, 0, 2000, zeroAddress, 0⟩
    (by decide) hashTwo 2500
  have hE := C2_duplicate_permanence demo2 farmerA ⟨hashOne, 0, 2000, zeroAddress, 0⟩
    (by decide) hashEmpty 2500
  have hD := C2_duplicate_permanence demo2 farmerA ⟨hashOne, 0, 2000, zeroAddress, 0⟩
    (by decide) hashTwo 3000000
  have hX := C2_duplicate_permanence demoX farmerA ⟨hashOne, 0, 2000, zeroAddress, 0⟩
    (by decide) hashTwo 2500
  exact ⟨by decide, by decide, h.1,
    h.2.1.mpr ⟨by decide, ⟨1000, 2593000⟩, by decide, by decide⟩,
    hE.2.2.1 rfl,
    hD.2.2.2.2 (by decide) ⟨1000, 2593000⟩ (by decide) (by decide),
    hX.2.2.2.1 (by decide) (by decide)⟩

/-- Claim C8 (confirmed): a successful `verify_claim` rewrites exactly the
target record — new status per `approved`, `verifier_identity = caller`,
`verification_timestamp = now`, with `proof_hash` and `submission_timestamp`
carried over — and touches nothing else: all other identities' claim
records, all enrollments, the verifier blob and the admin are unchanged. -/
theorem C8_verify_frame :
    ∀ (s : ContractState) (sender farmer : Bytes) (approved : Bool) (now : Nat)
      (s1 : ContractState), verify_claim s sender farmer approved now = (none, s1) →
      ∃ c, s.claims farmer = some c ∧
        s1.claims farmer = some ⟨c.proof_hash, if approved then 1 else 2,
          c.submission_timestamp, sender, now⟩ ∧
        (∀ other, other ≠ farmer → s1.claims other = s.claims other) ∧
        s1.enrollments = s.enrollments ∧ s1.verifiers = s.verifiers ∧
        s1.admin = s.admin := by
  intro s sender farmer approved now s1 h
  obtain ⟨-, c, hc, -, hcl, hen, hvf, had⟩ := verify_claim_success s sender farmer approved now s1 h
  refine ⟨c, hc, ?_, ?_, hen, hvf, had⟩
  · rw [hcl, updateMap_self]
  · intro other hother
    rw [hcl, updateMap_ne _ _ _ _ hother]

/-- Witness for C8 at the demonstration verification. -/
theorem C8_witness :
    verify_claim demo3 verifierV farmerA true 3000 = (none, demo4) ∧
      ∃ c, demo3.claims farmerA = some c ∧
        demo4.claims farmerA = some ⟨c.proof_hash, if true then 1 else 2,
          c.submission_timestamp, verifierV, 3000⟩ ∧
        (∀ other, other ≠ farmerA → demo4.claims other = demo3.claims other) ∧
        demo4.enrollments = demo3.enrollments ∧ demo4.verifiers = demo3.verifiers ∧
        demo4.admin = demo3.admin := by
  have hrun : verify_claim demo3 verifierV farmerA true 3000 = (none, demo4) := rfl
  exact ⟨hrun, C8_verify_frame demo3 verifierV farmerA true 3000 demo4 hrun⟩

/-- Claim C6 (confirmed): after any finite sequence of successful
`add_verifier` / `remove_verifier` calls starting from the empty verifier
set, `_is_verifier x` holds exactly when `x` was added by some call and not
removed by any later call (`addedNotLaterRemoved`).  Instantiating `x` with
the admin identity shows the admin is a verifier only if explicitly added:
admin status never implies verifier status. -/
theorem C6_membership :
    ∀ (s : ContractState) (ops : List (Bytes × VOp)) (s1 : ContractState),
      s.verifiers = none → (∀ p ∈ ops, ((p.2).addr).length = 32) →
      runVOps s ops = some s1 →
      ∀ x, is_verifier s1 x = addedNotLaterRemoved x ops := by
  intro s ops s1 hempty hwf hrun x
  have hrep : StateRepr s [] := by
    unfold StateRepr
    rw [hempty]
  exact runVOps_is_verifier ops s [] s1 hrep hwf hrun x

/-- Witness for C6: running `demoOps` leaves exactly `outsiderW` a verifier;
`verifierV` (removed) and `adminA` (never added) are not. -/
theorem C6_witness :
    demo0.verifiers = none ∧ runVOps demo0 demoOps = some demoV ∧
      is_verifier demoV verifierV = addedNotLaterRemoved verifierV demoOps ∧
      is_verifier demoV outsiderW = addedNotLaterRemoved outsiderW demoOps ∧
      is_verifier demoV adminA = addedNotLaterRemoved adminA demoOps ∧
      is_verifier demoV outsiderW = true ∧ is_verifier demoV verifierV = false ∧
      is_verifier demoV adminA = false := by
  have hrun : runVOps demo0 demoOps = some demoV := rfl
  refine ⟨rfl, hrun,
    C6_membership demo0 demoOps demoV rfl (by decide) hrun verifierV,
    C6_membership demo0 demoOps demoV rfl (by decide) hrun outsiderW,
    C6_membership demo0 demoOps demoV rfl (by decide) hrun adminA,
    by decide, by decide, by decide⟩

/-- Claim C7 (confirmed): (i) from a state with no verifier box, an admin
`add_verifier` followed by `remove_verifier` of the same 32-byte identity
succeeds and leaves the box absent again; (ii) in no reachable state is the
box present but empty (absence is the canonical empty set); (iii) an admin
`remove_verifier` of a non-member in a reachable state fails `NotFound`
(`ERR_VERIFIER_NOT_FOUND`) and leaves the state unchanged. -/
theorem C7_round_trip_and_canonical_empty :
    (∀ (s : ContractState) (sender v : Bytes), s.verifiers = none → v.length = 32 →
      sender = s.admin →
      (add_verifier s sender v).1 = none ∧
      (remove_verifier (add_verifier s sender v).2 sender v).1 = none ∧
      ((remove_verifier (add_verifier s sender v).2 sender v).2).verifiers = none) ∧
    (∀ s : ContractState, Reachable s → s.verifiers ≠ some []) ∧
    (∀ (s : ContractState) (sender v : Bytes), Reachable s → sender = s.admin →
      _is_verifier s v = false →
      remove_verifier s sender v = (some Err.VerifierNotFound, s)) := by
  refine ⟨fun s sender v he hv ha => add_remove_round_trip s sender v he hv ha,
    reachable_no_empty_blob, ?_⟩
  intro s sender v hreach hadm hnm
  obtain ⟨l, hrep⟩ := reachable_repr s hreach
  exact remove_verifier_nonmember s sender v l hrep hadm hnm

/-- Witness for C7 at `demo0`: concrete round trip and a failing non-member
removal. -/
theorem C7_witness :
    ((add_verifier demo0 adminA verifierV).1 = none ∧
      (remove_verifier (add_verifier demo0 adminA verifierV).2 adminA verifierV).1 = none ∧
      ((remove_verifier (add_verifier demo0 adminA verifierV).2 adminA verifierV).2).verifiers
        = none) ∧
    demo0.verifiers ≠ some [] ∧
    remove_verifier demo0 adminA outsiderW = (some Err.VerifierNotFound, demo0) := by
  have hreach : Reachable demo0 := Reachable.init adminA (by decide)
  exact ⟨C7_round_trip_and_canonical_empty.1 demo0 adminA verifierV rfl (by decide) rfl,
    C7_round_trip_and_canonical_empty.2.1 demo0 hreach,
    C7_round_trip_and_canonical_empty.2.2 demo0 adminA outsiderW hreach rfl (by decide)⟩

/-- Claim C10 (confirmed): in every reachable state where the verifier blob
exists, its length is a non-zero multiple of 32 and its 32-byte chunks are
pairwise distinct; consequently, for any member address, `_remove_from_list`
returns exactly the erasure of that one chunk — the remaining chunks in
their original relative order — and the blob shrinks by exactly 32 bytes. -/
theorem C10_blob_wellformed :
    ∀ (s : ContractState) (b : Bytes), Reachable s → s.verifiers = some b →
      (b.length ≠ 0 ∧ b.length % 32 = 0 ∧ (∀ c ∈ chunks32 b, c.length = 32) ∧
        (chunks32 b).Nodup) ∧
      ∀ v, _verifier_in_list b v = true →
        _remove_from_list b v = ((chunks32 b).erase v).flatten ∧
        (_remove_from_list b v).length + 32 = b.length := by
  intro s b hreach hb
  obtain ⟨hne, hmod, hlen, hnd, hrm⟩ := reachable_blob_wf s hreach b hb
  refine ⟨⟨?_, hmod, hlen, hnd⟩, hrm⟩
  intro h0
  exact hne (List.length_eq_zero.mp h0)

/-- Witness for C10 at the reachable state `demo3`, whose blob is the single
chunk `verifierV`. -/
theorem C10_witness :
    demo3.verifiers = some verifierV ∧
      (verifierV.length ≠ 0 ∧ verifierV.length % 32 = 0 ∧
        (chunks32 verifierV).Nodup) ∧
      _remove_from_list verifierV verifierV = ((chunks32 verifierV).erase verifierV).flatten ∧
      (_remove_from_list verifierV verifierV).length + 32 = verifierV.length := by
  have hreach0 : Reachable demo0 := Reachable.init adminA (by decide)
  have hreach1 : Reachable demo1 :=
    Reachable.step demo0 (Op.enroll farmerA 30 1000) hreach0 (show farmerA.length = 32 by decide)
  have hreach2 : Reachable demo2 :=
    Reachable.step demo1 (Op.submit farmerA hashOne 2000) hreach1 (show farmerA.length = 32 by decide)
  have hreach3 : Reachable demo3 :=
    Reachable.step demo2 (Op.addVerifier adminA verifierV) hreach2 ⟨by decide, by decide⟩
  have h := C10_blob_wellformed demo3 verifierV hreach3 (by decide)
  exact ⟨by decide, ⟨h.1.1, h.1.2.1, h.1.2.2.2⟩, h.2 verifierV (by decide)⟩
